import Mathlib

/-!
Shallow embedding of the Buyee/Mercari crawler (`src/main.py`).

Pure data flow is modelled directly; browser interaction (Playwright) is
modelled as oracle parameters.  Python exceptions that abort the run are
modelled with `Except Unit`.  Python `str` is modelled by `String`, with
character-level operations on `String.data`; the Python `set` of existing
URLs is modelled by a `List String` used only through membership.
-/

namespace Crawler

/-- Python `str.startswith(pre)` on `s`, at the code-point level. -/
def pyStartswith (s pre : String) : Bool :=
  pre.data.isPrefixOf s.data

/-- Characters removed by Python `str.strip()` are leading and trailing
whitespace. -/
def stripChars (l : List Char) : List Char :=
  ((l.dropWhile Char.isWhitespace).reverse.dropWhile Char.isWhitespace).reverse

/-- Python `str.strip()`. -/
def pyStrip (s : String) : String :=
  ⟨stripChars s.data⟩

/-- Python `s.replace(",", "")`. -/
def removeCommas (s : String) : String :=
  ⟨s.data.filter (fun c => c ≠ ',')⟩

/-- Decimal value of a list of digit characters, as read by Python `int`. -/
def digitsVal (l : List Char) : Nat :=
  l.foldl (fun a c => 10 * a + (c.toNat - 48)) 0

/-- Model of `main.py` line 171:
`price_num = int(re.sub(r"[^\d]", "", it["price"])) if it["price"] else 0`.
An empty price text short-circuits to `0`; otherwise all non-digit
characters are stripped and the remainder is handed to `int`, which raises
`ValueError` (modelled as `.error ()`) on an empty string — that is, on a
non-empty price text containing no digit at all. -/
def priceValue (price : String) : Except Unit Nat :=
  if price = "" then .ok 0
  else
    let ds := price.data.filter Char.isDigit
    if ds = [] then .error ()
    else .ok (digitsVal ds)

/-- Model of `main.py` lines 148-152: `mp_clean = raw.replace(",", "").strip()`;
then `int(mp_clean) if mp_clean else None`, with `ValueError` mapped to
`None`.  Only non-negative decimal ceilings occur in the claims; a cleaned
string of digits parses, anything else (empty included) yields `none`. -/
def parseCeil (raw : String) : Option Nat :=
  let c := pyStrip (removeCommas raw)
  if c.data ≠ [] ∧ c.data.all Char.isDigit then some (digitsVal c.data)
  else none

/-- Model of `main.py` lines 146-152 and 158: the ceiling map is keyed by
`code.strip()` (later rows overwrite earlier ones, as in a Python dict),
and the loop body reads it with `max_map.get(kw)` at the untrimmed
keyword; a missing key and a stored `None` both give no ceiling. -/
def lookupLimit (pairs : List (String × String)) (kw : String) : Option Nat :=
  match pairs.reverse.find? (fun p => pyStrip p.1 = kw) with
  | some p => parseCeil p.2
  | none => none

/-- A listing dict as built by `crawl_buyee` (`main.py` lines 128-135). -/
structure Item where
  code : String
  title : String
  price : String
  image : String
  url : String
  date : String
  deriving Repr, DecidableEq

/-- A spreadsheet row: one `new_rows` entry (`main.py` lines 164-167 and
177-180); six cells, the url in cell index 4. -/
abbrev Row := List String

/-- Model of `main.py` line 176: the `=IMAGE("…",1)` formula when an image
reference is present. -/
def imgFormula (img : String) : String :=
  if img = "" then "" else "=IMAGE(\x22" ++ img ++ "\x22,1)"

/-- Model of `main.py` lines 177-180: the row projected from an accepted
listing. -/
def itemRow (it : Item) : Row :=
  [it.code, it.title, it.price, imgFormula it.image, it.url, it.date]

/-- Model of `main.py` lines 164-167: the "no results" sentinel row. -/
def sentinelRow (kw now : String) : Row :=
  [kw, "결과 없음", "", "", "", now]

/-- Mutable state of the run: `existing_urls` (a Python set, modelled by
membership in a list) and the accumulated `new_rows`. -/
structure RunState where
  existing : List String
  rows : List Row
  deriving Repr, DecidableEq

/-- Model of `main.py` lines 170-181, one iteration of the item loop:
parse the price (may raise), skip the item when a ceiling is set and
exceeded, skip it when its url is already known, otherwise append its row
and record its url. -/
def processItem (limit : Option Nat) (st : RunState) (it : Item) :
    Except Unit RunState :=
  (priceValue it.price).map (fun p =>
    if (match limit with | some l => decide (p > l) | none => false) then st
    else if it.url ∈ st.existing then st
    else ⟨it.url :: st.existing, st.rows ++ [itemRow it]⟩)

/-- The item loop of `main.py` lines 170-181 over a whole crawl result. -/
def processItems (limit : Option Nat) (st : RunState) :
    List Item → Except Unit RunState
  | [] => .ok st
  | it :: rest =>
      (processItem limit st it).bind (fun st2 => processItems limit st2 rest)

/-- Model of `main.py` lines 162-181: the pipeline step for one keyword.
An empty crawl result emits the sentinel row unless an empty url is
already recorded; a non-empty result goes through the item loop. -/
def processKeyword (kw : String) (limit : Option Nat) (now : String)
    (results : List Item) (st : RunState) : Except Unit RunState :=
  if results = [] then
    .ok (if "" ∈ st.existing then st
         else ⟨"" :: st.existing, st.rows ++ [sentinelRow kw now]⟩)
  else
    processItems limit st results

/-- Model of `main.py` lines 157-183: the keyword loop.  Here `crawl`
stands for `crawl_buyee`; there is no `try`/`except` around it, so a crawl
error propagates out of the loop (modelled by `Except.bind`). -/
def runKeywords (pairs : List (String × String))
    (crawl : String → Except Unit (List Item)) (now : String) :
    List String → RunState → Except Unit RunState
  | [], st => .ok st
  | kw :: rest, st =>
      (crawl kw).bind (fun results =>
        (processKeyword kw (lookupLimit pairs kw) now results st).bind
          (fun st2 => runKeywords pairs crawl now rest st2))

/-- Model of the pure part of `main()` in `main.py` lines 140-187: build
the ceiling map from the two input columns (`zip` truncates to the
shorter), seed `existing_urls` from the sheet, and run the keyword loop
over the untrimmed first column. -/
def runMain (codes maxRaw : List String) (existing0 : List String)
    (crawl : String → Except Unit (List Item)) (now : String) :
    Except Unit RunState :=
  runKeywords (codes.zip maxRaw) crawl now codes ⟨existing0, []⟩

/-- Observable page state consulted by frame resolution in `main.py`
lines 76-86: the `src` attribute of `iframe[name="search_result_iframe"]`
(`none` when the element is absent), and the name/url of every frame
attached to the page (which the code never reads). -/
structure PageFrames where
  iframeSrc : Option String
  namedFrames : List (String × String)

/-- Model of `main.py` lines 79-83: the deterministic fallback results URL
built from the keyword and fixed query parameters. -/
def fallbackUrl (kw : String) : String :=
  "https://asf.buyee.jp/mercari?keyword=" ++ kw ++
    "&conversionType=Mercari_DirectSearch&currencyCode=KRW&myee=0&languageCode=en&lang=en"

/-- Model of `main.py` lines 76-86: the URL the page is navigated to.
The iframe `src` is used when present and non-empty (`if not iframe_src`
covers both `None` and `""`); otherwise the fallback URL.  No other page
state is consulted. -/
def resolveFrameUrl (p : PageFrames) (kw : String) : String :=
  match p.iframeSrc with
  | some s => if s = "" then fallbackUrl kw else s
  | none => fallbackUrl kw

/-- Helper for `pySplit`: scan the characters, accumulating the current
word in reverse; a whitespace character closes the current word (if any),
and a trailing word is flushed at the end. -/
def tokensAux : List Char → List Char → List String
  | [], acc => if acc = [] then [] else [⟨acc.reverse⟩]
  | c :: rest, acc =>
      if c.isWhitespace then
        if acc = [] then tokensAux rest []
        else ⟨acc.reverse⟩ :: tokensAux rest []
      else tokensAux rest (c :: acc)

/-- Python `str.split()` with no separator: split on whitespace runs,
dropping empty pieces. -/
def pySplit (s : String) : List String :=
  tokensAux s.data []

instance {ε α : Type} [DecidableEq ε] [DecidableEq α] :
    DecidableEq (Except ε α) := fun x y =>
  match x, y with
  | .ok a, .ok b =>
      if h : a = b then isTrue (by rw [h])
      else isFalse (fun hh => h (Except.ok.inj hh))
  | .error a, .error b =>
      if h : a = b then isTrue (by rw [h])
      else isFalse (fun hh => h (Except.error.inj hh))
  | .ok _, .error _ => isFalse (fun hh => Except.noConfusion hh)
  | .error _, .ok _ => isFalse (fun hh => Except.noConfusion hh)

/-- Model of `main.py` lines 103-106: all class tokens, in order, of the
scanned class attribute values. -/
def tokenize (classes : List String) : List String :=
  classes.flatMap pySplit

/-- Occurrence count of one token (a `Counter` entry). -/
def tokCount (ts : List String) (t : String) : Nat :=
  (ts.filter (fun u => u = t)).length

/-- Keys of a Python `Counter` in first-insertion order. -/
def firstOccs : List String → List String
  | [] => []
  | t :: rest => t :: (firstOccs rest).filter (fun u => u ≠ t)

/-- One step of `counter.most_common(1)`: a later key replaces the running
best only when strictly more frequent, because `sorted` is stable and the
keys are visited in insertion order. -/
def pickBetter (ts : List String) (best : Option String) (k : String) :
    Option String :=
  match best with
  | none => some k
  | some b => if tokCount ts k > tokCount ts b then some k else some b

/-- Model of `counter.most_common(1)[0][0]`: the key with the largest
count, ties broken by insertion order. -/
def topToken (ts : List String) : Option String :=
  (firstOccs ts).foldl (pickBetter ts) none

/-- Model of `main.py` lines 107-111: class-based selector from the most
frequent token, else the href-pattern fallback selector. -/
def inferSelector (classes : List String) : String :=
  match topToken (tokenize classes) with
  | some t => "a." ++ t
  | none => "a[href*=\x22/item/\x22]"

/-- Model of `main.py` lines 28-39 (`auto_scroll`): `h i` is the
`scrollHeight` measured at the `i`-th evaluation.  Starting from
`prev = h 0`, each iteration measures `h i` and stops when it equals the
previous measurement.  `fuel` bounds the unrolling only in the model; the
code has no bound.  Returns the index of the measurement that repeated. -/
def autoScrollSteps (h : Nat → Nat) : Nat → Nat → Nat → Option Nat
  | 0, _, _ => none
  | fuel + 1, prev, i =>
      if h i = prev then some i else autoScrollSteps h fuel (h i) (i + 1)

/-- The `auto_scroll` loop observed for `fuel` iterations. -/
def autoScroll (h : Nat → Nat) (fuel : Nat) : Option Nat :=
  autoScrollSteps h fuel (h 0) 1

/-- Model of `main.py` line 133:
`href if href.startswith("http") else f"https://buyee.jp{href}"`. -/
def makeAbsolute (href : String) : String :=
  if pyStartswith href "http" then href else "https://buyee.jp" ++ href

/-- Number of accumulated rows whose url cell (index 4) equals `u`. -/
def urlCount (u : String) (rows : List Row) : Nat :=
  (rows.filter (fun r => r[4]? = some u)).length

/-- Invariant of the result pipeline relative to the initial identifier
set `e0`: the initial identifiers stay recorded, each url occurs in at
most one accumulated row, a url not recorded in `existing` has no row,
and an initially recorded url never gains a row. -/
def GoodState (e0 : List String) (st : RunState) : Prop :=
  (∀ v ∈ e0, v ∈ st.existing) ∧
  ∀ u, urlCount u st.rows ≤ 1 ∧
    (u ∉ st.existing → urlCount u st.rows = 0) ∧
    (u ∈ e0 → urlCount u st.rows = 0)

/-- The item loop drops `it` from state `st`: its price parses and either
a set ceiling is exceeded or its url is already recorded. -/
def dropsItem (limit : Option Nat) (st : RunState) (it : Item) : Prop :=
  ∃ p, priceValue it.price = .ok p ∧
    ((∃ l, limit = some l ∧ p > l) ∨ it.url ∈ st.existing)

end Crawler

namespace Crawler

theorem head?_dropWhile_not (p : Char → Bool) :
    ∀ (l : List Char) (c : Char), (l.dropWhile p).head? = some c → p c = false := by
  intro l
  induction l with
  | nil => intro c h; simp [List.dropWhile] at h
  | cons a t ih =>
    intro c h
    rw [List.dropWhile_cons] at h
    by_cases hpa : p a = true
    · rw [if_pos hpa] at h; exact ih c h
    · rw [if_neg hpa] at h
      simp only [List.head?_cons, Option.some.injEq] at h
      rw [← h]
      exact Bool.eq_false_iff.mpr hpa

theorem strip_getLast_not_ws (l : List Char) (c : Char)
    (h : (stripChars l).getLast? = some c) : c.isWhitespace = false := by
  unfold stripChars at h
  rw [List.getLast?_reverse] at h
  exact head?_dropWhile_not _ _ _ h

theorem strip_head_not_ws (l : List Char) (c : Char)
    (h : (stripChars l).head? = some c) : c.isWhitespace = false := by
  unfold stripChars at h
  rw [List.head?_reverse] at h
  obtain ⟨t, ht⟩ :=
    List.dropWhile_suffix (l := (l.dropWhile Char.isWhitespace).reverse)
      Char.isWhitespace
  have hx : ((l.dropWhile Char.isWhitespace).reverse).getLast? = some c := by
    rw [← ht, List.getLast?_append, h]
    rfl
  rw [List.getLast?_reverse] at hx
  exact head?_dropWhile_not _ _ _ hx

theorem pyStrip_ne_of_ws (s kw : String)
    (h : ∃ c, (kw.data.head? = some c ∨ kw.data.getLast? = some c) ∧
      c.isWhitespace = true) : pyStrip s ≠ kw := by
  intro heq
  obtain ⟨c, hc, hws⟩ := h
  have hdata : stripChars s.data = kw.data := congrArg String.data heq
  cases hc with
  | inl hh =>
    rw [← hdata] at hh
    rw [strip_head_not_ws s.data c hh] at hws
    exact Bool.false_ne_true hws
  | inr hh =>
    rw [← hdata] at hh
    rw [strip_getLast_not_ws s.data c hh] at hws
    exact Bool.false_ne_true hws

theorem urlCount_append_single (u : String) (rows : List Row) (r : Row) :
    urlCount u (rows ++ [r]) =
      urlCount u rows + (if r[4]? = some u then 1 else 0) := by
  unfold urlCount
  rw [List.filter_append, List.length_append]
  congr 1
  by_cases h : r[4]? = some u
  · simp [h]
  · simp [h]

end Crawler

namespace Crawler

theorem processItem_cases (limit : Option Nat) (st : RunState) (it : Item)
    (st' : RunState) (h : processItem limit st it = .ok st') :
    ∃ p, priceValue it.price = .ok p ∧
      (st' = st ∨
        ((∀ l, limit = some l → p ≤ l) ∧ it.url ∉ st.existing ∧
          st' = RunState.mk (it.url :: st.existing) (st.rows ++ [itemRow it]))) := by
  unfold processItem at h
  cases hp : priceValue it.price with
  | error e => rw [hp] at h; simp [Except.map] at h
  | ok p =>
    rw [hp] at h
    simp only [Except.map, Except.ok.injEq] at h
    refine ⟨p, rfl, ?_⟩
    split at h
    · exact Or.inl h.symm
    · split at h
      · exact Or.inl h.symm
      · rename_i hlim hmem
        refine Or.inr ⟨?_, hmem, h.symm⟩
        intro l hl
        rw [hl] at hlim
        simpa using hlim

theorem good_emit (e0 : List String) (st : RunState) (u0 : String) (r : Row)
    (h4 : r[4]? = some u0) (hnot : u0 ∉ st.existing) (hg : GoodState e0 st) :
    GoodState e0 ⟨u0 :: st.existing, st.rows ++ [r]⟩ := by
  obtain ⟨hsub, hcnt⟩ := hg
  refine ⟨fun v hv => List.mem_cons_of_mem _ (hsub v hv), fun u => ?_⟩
  obtain ⟨h1, h2, h3⟩ := hcnt u
  dsimp only
  by_cases hu : u = u0
  · subst hu
    have hc : urlCount u (st.rows ++ [r]) = 1 := by
      rw [urlCount_append_single, h4, if_pos rfl, h2 hnot]
    refine ⟨le_of_eq hc, ?_, ?_⟩
    · intro hn; exact absurd (List.mem_cons_self _ _) hn
    · intro he0; exact absurd (hsub _ he0) hnot
  · have hcond : ¬(r[4]? = some u) := by
      rw [h4]
      intro hh
      exact hu (Option.some.inj hh).symm
    have hc : urlCount u (st.rows ++ [r]) = urlCount u st.rows := by
      rw [urlCount_append_single, if_neg hcond, Nat.add_zero]
    rw [hc]
    exact ⟨h1, fun hn => h2 (fun hmem => hn (List.mem_cons_of_mem _ hmem)), h3⟩

theorem processItem_good (e0 : List String) (limit : Option Nat)
    (st : RunState) (it : Item) (st' : RunState)
    (h : processItem limit st it = .ok st') (hg : GoodState e0 st) :
    GoodState e0 st' := by
  obtain ⟨p, _, hcase⟩ := processItem_cases limit st it st' h
  cases hcase with
  | inl he => rwa [he]
  | inr hr =>
    rw [hr.2.2]
    exact good_emit e0 st it.url (itemRow it) rfl hr.2.1 hg

theorem processItems_good (e0 : List String) (limit : Option Nat) :
    ∀ (items : List Item) (st st' : RunState),
      processItems limit st items = .ok st' → GoodState e0 st →
      GoodState e0 st' := by
  intro items
  induction items with
  | nil =>
    intro st st' h hg
    injection h with h
    rwa [← h]
  | cons it rest ih =>
    intro st st' h hg
    unfold processItems at h
    cases hi : processItem limit st it with
    | error e => rw [hi] at h; simp [Except.bind] at h
    | ok st2 =>
      rw [hi] at h
      simp only [Except.bind] at h
      exact ih st2 st' h (processItem_good e0 limit st it st2 hi hg)

theorem processKeyword_good (e0 : List String) (kw : String)
    (limit : Option Nat) (now : String) (results : List Item)
    (st st' : RunState) (h : processKeyword kw limit now results st = .ok st')
    (hg : GoodState e0 st) : GoodState e0 st' := by
  unfold processKeyword at h
  by_cases hres : results = []
  · rw [if_pos hres] at h
    injection h with h
    split at h
    · rwa [← h]
    · rename_i hmem
      rw [← h]
      exact good_emit e0 st "" (sentinelRow kw now) rfl hmem hg
  · rw [if_neg hres] at h
    exact processItems_good e0 limit results st st' h hg

theorem runKeywords_good (e0 : List String) (pairs : List (String × String))
    (crawl : String → Except Unit (List Item)) (now : String) :
    ∀ (codes : List String) (st st' : RunState),
      runKeywords pairs crawl now codes st = .ok st' → GoodState e0 st →
      GoodState e0 st' := by
  intro codes
  induction codes with
  | nil =>
    intro st st' h hg
    injection h with h
    rwa [← h]
  | cons kw rest ih =>
    intro st st' h hg
    unfold runKeywords at h
    cases hc : crawl kw with
    | error e => rw [hc] at h; simp [Except.bind] at h
    | ok results =>
      rw [hc] at h
      simp only [Except.bind] at h
      cases hk : processKeyword kw (lookupLimit pairs kw) now results st with
      | error e => rw [hk] at h; simp [Except.bind] at h
      | ok st2 =>
        rw [hk] at h
        simp only [Except.bind] at h
        exact ih st2 st' h
          (processKeyword_good e0 kw (lookupLimit pairs kw) now results st st2
            hk hg)

theorem runMain_good (codes maxRaw existing0 : List String)
    (crawl : String → Except Unit (List Item)) (now : String)
    (st : RunState) (h : runMain codes maxRaw existing0 crawl now = .ok st) :
    GoodState existing0 st := by
  refine runKeywords_good existing0 (codes.zip maxRaw) crawl now codes
    ⟨existing0, []⟩ st h ⟨fun v hv => hv, fun u => ?_⟩
  refine ⟨?_, fun _ => rfl, fun _ => rfl⟩
  exact Nat.zero_le 1

end Crawler

namespace Crawler

theorem processItem_drop (limit : Option Nat) (st : RunState) (it : Item)
    (h : dropsItem limit st it) : processItem limit st it = .ok st := by
  obtain ⟨p, hp, hdrop⟩ := h
  unfold processItem
  rw [hp]
  simp only [Except.map]
  apply congrArg
  split
  · rfl
  · rename_i hlim
    cases hdrop with
    | inl hl =>
      obtain ⟨l, hliml, hgt⟩ := hl
      rw [hliml] at hlim
      exact absurd (by simpa using hgt) hlim
    | inr hmem => rw [if_pos hmem]

theorem processItems_drop (limit : Option Nat) (st : RunState) :
    ∀ (items : List Item), (∀ it ∈ items, dropsItem limit st it) →
      processItems limit st items = .ok st := by
  intro items
  induction items with
  | nil => intro _; rfl
  | cons it rest ih =>
    intro hall
    unfold processItems
    rw [processItem_drop limit st it (hall it (List.mem_cons_self _ _))]
    simp only [Except.bind]
    exact ih (fun x hx => hall x (List.mem_cons_of_mem _ hx))

theorem runKeywords_error (pairs : List (String × String))
    (crawl : String → Except Unit (List Item)) (now : String) :
    ∀ (codes : List String) (st : RunState),
      (∃ kw ∈ codes, crawl kw = .error ()) →
      runKeywords pairs crawl now codes st = .error () := by
  intro codes
  induction codes with
  | nil =>
    intro st h
    obtain ⟨kw, hmem, _⟩ := h
    exact absurd hmem (List.not_mem_nil kw)
  | cons c rest ih =>
    intro st h
    obtain ⟨kw, hmem, herr⟩ := h
    unfold runKeywords
    cases hc : crawl c with
    | error e => simp [Except.bind]
    | ok results =>
      have hkw : kw ∈ rest := by
        cases List.mem_cons.mp hmem with
        | inl hh => rw [hh, hc] at herr; exact absurd herr (by simp)
        | inr hh => exact hh
      simp only [Except.bind]
      cases hk : processKeyword c (lookupLimit pairs c) now results st with
      | error e => rfl
      | ok st2 => exact ih st2 ⟨kw, hkw, herr⟩

end Crawler

namespace Crawler

theorem mem_firstOccs (t : String) : ∀ (ts : List String), t ∈ ts → t ∈ firstOccs ts := by
  intro ts
  induction ts with
  | nil => intro h; exact absurd h (List.not_mem_nil t)
  | cons a rest ih =>
    intro h
    unfold firstOccs
    by_cases ha : t = a
    · rw [ha]; exact List.mem_cons_self _ _
    · have : t ∈ rest := by
        cases List.mem_cons.mp h with
        | inl hh => exact absurd hh ha
        | inr hh => exact hh
      refine List.mem_cons_of_mem _ ?_
      rw [List.mem_filter]
      exact ⟨ih this, by simpa using ha⟩

theorem firstOccs_sub (u : String) : ∀ (ts : List String), u ∈ firstOccs ts → u ∈ ts := by
  intro ts
  induction ts with
  | nil => intro h; exact absurd h (List.not_mem_nil u)
  | cons a rest ih =>
    intro h
    unfold firstOccs at h
    cases List.mem_cons.mp h with
    | inl hh => rw [hh]; exact List.mem_cons_self _ _
    | inr hh =>
      exact List.mem_cons_of_mem _ (ih (List.mem_filter.mp hh).1)

theorem foldl_pick_stay (ts : List String) :
    ∀ (keys : List String) (t : String),
      (∀ u ∈ keys, ¬tokCount ts u > tokCount ts t) →
      List.foldl (pickBetter ts) (some t) keys = some t := by
  intro keys
  induction keys with
  | nil => intro t _; rfl
  | cons k ks ih =>
    intro t hall
    rw [List.foldl_cons]
    have hstep : pickBetter ts (some t) k = some t := by
      simp only [pickBetter]
      rw [if_neg (hall k (List.mem_cons_self _ _))]
    rw [hstep]
    exact ih t (fun u hu => hall u (List.mem_cons_of_mem _ hu))

theorem foldl_pick_max (ts : List String) :
    ∀ (keys : List String) (t : String) (acc : Option String), t ∈ keys →
      (∀ u ∈ keys, u ≠ t → tokCount ts u < tokCount ts t) →
      (acc = none ∨ ∃ b, acc = some b ∧ tokCount ts b < tokCount ts t) →
      List.foldl (pickBetter ts) acc keys = some t := by
  intro keys
  induction keys with
  | nil => intro t acc hmem _ _; exact absurd hmem (List.not_mem_nil t)
  | cons k ks ih =>
    intro t acc hmem hlt hacc
    rw [List.foldl_cons]
    by_cases hk : k = t
    · subst hk
      have hstep : pickBetter ts acc k = some k := by
        cases hacc with
        | inl hh => rw [hh]; rfl
        | inr hh =>
          obtain ⟨b, hb, hblt⟩ := hh
          rw [hb]
          simp only [pickBetter]
          rw [if_pos hblt]
      rw [hstep]
      refine foldl_pick_stay ts ks k (fun u hu => ?_)
      by_cases hu' : u = k
      · rw [hu']; exact lt_irrefl _
      · exact not_lt_of_lt (hlt u (List.mem_cons_of_mem _ hu) hu')
    · have htks : t ∈ ks := by
        cases List.mem_cons.mp hmem with
        | inl hh => exact absurd hh.symm hk
        | inr hh => exact hh
      have hklt : tokCount ts k < tokCount ts t :=
        hlt k (List.mem_cons_self _ _) hk
      refine ih t (pickBetter ts acc k) htks
        (fun u hu hu' => hlt u (List.mem_cons_of_mem _ hu) hu') ?_
      right
      cases hacc with
      | inl hh =>
        rw [hh]
        exact ⟨k, rfl, hklt⟩
      | inr hh =>
        obtain ⟨b, hb, hblt⟩ := hh
        rw [hb]
        simp only [pickBetter]
        by_cases hcmp : tokCount ts k > tokCount ts b
        · rw [if_pos hcmp]; exact ⟨k, rfl, hklt⟩
        · rw [if_neg hcmp]; exact ⟨b, rfl, hblt⟩

theorem topToken_of_strict_max (ts : List String) (t : String) (hmem : t ∈ ts)
    (hlt : ∀ u ∈ ts, u ≠ t → tokCount ts u < tokCount ts t) :
    topToken ts = some t := by
  unfold topToken
  exact foldl_pick_max ts (firstOccs ts) t none (mem_firstOccs t ts hmem)
    (fun u hu hu' => hlt u (firstOccs_sub u ts hu) hu') (Or.inl rfl)

theorem autoScrollSteps_strictMono_none (h : Nat → Nat) (hs : StrictMono h) :
    ∀ (fuel i : Nat), autoScrollSteps h fuel (h i) (i + 1) = none := by
  intro fuel
  induction fuel with
  | zero => intro i; rfl
  | succ n ih =>
    intro i
    unfold autoScrollSteps
    rw [if_neg (Nat.ne_of_gt (hs (Nat.lt_succ_self i)))]
    exact ih (i + 1)

theorem autoScrollSteps_exact (h : Nat → Nat) :
    ∀ (fuel i j : Nat), 1 ≤ i →
      autoScrollSteps h fuel (h (i - 1)) i = some j →
      i ≤ j ∧ h j = h (j - 1) ∧ ∀ k, i ≤ k → k < j → h k ≠ h (k - 1) := by
  intro fuel
  induction fuel with
  | zero => intro i j _ hstep; exact absurd hstep (by simp [autoScrollSteps])
  | succ n ih =>
    intro i j hi hstep
    unfold autoScrollSteps at hstep
    by_cases hcase : h i = h (i - 1)
    · rw [if_pos hcase] at hstep
      have hij : i = j := Option.some.inj hstep
      subst hij
      exact ⟨le_refl i, hcase, fun k hk1 hk2 => absurd (lt_of_le_of_lt hk1 hk2) (lt_irrefl i)⟩
    · rw [if_neg hcase] at hstep
      have hstep' : autoScrollSteps h n (h ((i + 1) - 1)) (i + 1) = some j := by
        simpa using hstep
      obtain ⟨hij, hrep, hne⟩ := ih (i + 1) j (Nat.le_add_left 1 i) hstep'
      refine ⟨Nat.le_of_succ_le hij, hrep, fun k hk1 hk2 => ?_⟩
      by_cases hki : k = i
      · rw [hki]; exact hcase
      · exact hne k (Nat.lt_of_le_of_ne hk1 (fun hh => hki hh.symm)) hk2

end Crawler

namespace Crawler

/-- Claim C3, counterexample: the claim says a non-empty price text
containing no digit yields `price_value = 0` and never an error, but the
code hands the digit-stripped empty string to `int`, which raises
`ValueError`: `priceValue "abc"` errors, and so does the pipeline step
processing such an item. -/
theorem C3_counterexample :
    priceValue "abc" = Except.error () ∧
    processItem (some 5000) ⟨[], []⟩ ⟨"k", "t", "abc", "", "u", "d"⟩ =
      Except.error () := by
  exact ⟨by decide, by decide⟩

/-- Claim C3, amended: `price_value` is obtained from `price_text` by
stripping all non-digit characters and reading the remainder as a decimal
integer; an empty `price_text` yields `0`, `"¥ 12,300"` yields `12300`,
but a non-empty `price_text` containing no digit raises an error instead
of yielding `0`. -/
theorem C3_price_parsing :
    priceValue "" = Except.ok 0 ∧
    priceValue "¥ 12,300" = Except.ok 12300 ∧
    (∀ s : String, s ≠ "" → s.data.filter Char.isDigit ≠ [] →
      priceValue s = Except.ok (digitsVal (s.data.filter Char.isDigit))) ∧
    (∀ s : String, s ≠ "" → s.data.filter Char.isDigit = [] →
      priceValue s = Except.error ()) := by
  refine ⟨by decide, by decide, ?_, ?_⟩
  · intro s hne hds
    unfold priceValue
    rw [if_neg hne, if_neg hds]
  · intro s hne hds
    unfold priceValue
    rw [if_neg hne, if_pos hds]

/-- Witness for C3_price_parsing at the concrete inputs `"¥5"` and
`"abc"`. -/
theorem C3_price_parsing_witness :
    priceValue "¥5" = Except.ok (digitsVal ("¥5".data.filter Char.isDigit)) ∧
    priceValue "abc" = Except.error () :=
  ⟨C3_price_parsing.2.2.1 "¥5" (by decide) (by decide),
    C3_price_parsing.2.2.2 "abc" (by decide) (by decide)⟩

/-- Claim C4, counterexample: the claim says that when reading the iframe
`src` fails, resolution looks up a frame by its declared logical name and
then scans frame URLs before constructing the fallback URL; but with no
`src` available and a frame named `search_result_iframe` attached whose
URL is the results-service URL, the code still navigates to the
constructed fallback URL, which differs from that frame URL. -/
theorem C4_counterexample :
    resolveFrameUrl
        ⟨none, [("search_result_iframe",
          "https://asf.buyee.jp/mercari?keyword=k")]⟩ "k" = fallbackUrl "k" ∧
    fallbackUrl "k" ≠ "https://asf.buyee.jp/mercari?keyword=k" := by
  exact ⟨rfl, by decide⟩

/-- Claim C4, amended: frame resolution tries exactly two strategies in
order: (1) read the matching iframe `src` attribute and navigate to it
when it is present and non-empty; (2) otherwise construct the fallback URL
from the keyword and fixed query parameters.  No frame-name lookup or
frame-URL scan is performed: the result is independent of the attached
frames. -/
theorem C4_two_strategies :
    (∀ (src : Option String) (frames frames' : List (String × String))
      (kw : String),
      resolveFrameUrl ⟨src, frames⟩ kw = resolveFrameUrl ⟨src, frames'⟩ kw) ∧
    (∀ (p : PageFrames) (kw s : String), p.iframeSrc = some s → s ≠ "" →
      resolveFrameUrl p kw = s) ∧
    (∀ (p : PageFrames) (kw : String),
      p.iframeSrc = none ∨ p.iframeSrc = some "" →
      resolveFrameUrl p kw = fallbackUrl kw) := by
  refine ⟨fun src frames frames' kw => rfl, ?_, ?_⟩
  · intro p kw s hsrc hne
    obtain ⟨isrc, nfr⟩ := p
    cases hsrc
    unfold resolveFrameUrl
    exact if_neg hne
  · intro p kw hsrc
    obtain ⟨isrc, nfr⟩ := p
    cases hsrc with
    | inl hh => cases hh; rfl
    | inr hh => cases hh; rfl

/-- Witness for C4_two_strategies at concrete page states. -/
theorem C4_two_strategies_witness :
    resolveFrameUrl ⟨some "https://asf.buyee.jp/x", []⟩ "k" =
      "https://asf.buyee.jp/x" ∧
    resolveFrameUrl ⟨some "", []⟩ "k" = fallbackUrl "k" :=
  ⟨C4_two_strategies.2.1 ⟨some "https://asf.buyee.jp/x", []⟩ "k"
      "https://asf.buyee.jp/x" rfl (by decide),
    C4_two_strategies.2.2 ⟨some "", []⟩ "k" (Or.inr rfl)⟩

/-- Claim C7: the pagination loop stops exactly at the first measurement
equal to the one before it (the idempotent end condition): the height
sequence 100, 250, 250, … terminates at the repeated measurement, a
strictly increasing height sequence never terminates for any amount of
fuel, and whenever the loop stops at measurement `i`, the height was
unchanged there and changed at every earlier step. -/
theorem C7_pagination_termination :
    autoScroll (fun n => if n = 0 then 100 else 250) 2 = some 2 ∧
    (∀ h : Nat → Nat, StrictMono h → ∀ fuel, autoScroll h fuel = none) ∧
    (∀ (h : Nat → Nat) (fuel i : Nat), autoScroll h fuel = some i →
      1 ≤ i ∧ h i = h (i - 1) ∧ ∀ j, 1 ≤ j → j < i → h j ≠ h (j - 1)) := by
  refine ⟨by decide, ?_, ?_⟩
  · intro h hs fuel
    exact autoScrollSteps_strictMono_none h hs fuel 0
  · intro h fuel i hstep
    exact autoScrollSteps_exact h fuel 1 i (le_refl 1) hstep

/-- Witness for C7_pagination_termination: the identity height sequence
(strictly increasing) never terminates, and a constant sequence stops at
the first iteration with no earlier step. -/
theorem C7_pagination_termination_witness :
    autoScroll (fun n => n) 3 = none ∧
    (1 ≤ 1 ∧ (fun _ : Nat => 0) 1 = (fun _ : Nat => 0) (1 - 1) ∧
      ∀ j, 1 ≤ j → j < 1 → (fun _ : Nat => 0) j ≠ (fun _ : Nat => 0) (j - 1)) :=
  ⟨C7_pagination_termination.2.1 (fun n => n) strictMono_id 3,
    C7_pagination_termination.2.2 (fun _ => 0) 1 1 (by decide)⟩

/-- Claim C8, counterexample: the claim says a link target not starting
with the site scheme+host gets the canonical origin prefixed, but the code
only tests `startswith("http")`: the off-site target
`"http://example.com/item/1"` is kept unchanged even though it does not
start with `"https://buyee.jp"`. -/
theorem C8_counterexample :
    makeAbsolute "http://example.com/item/1" = "http://example.com/item/1" ∧
    pyStartswith "http://example.com/item/1" "https://buyee.jp" = false := by
  exact ⟨by decide, by decide⟩

/-- Claim C8, amended: a link target starting with `"http"` is kept
unchanged (in particular any target starting with the site scheme+host),
a target not starting with `"http"` gets `"https://buyee.jp"` prefixed,
and the resulting `item_url` always starts with `"http"`. -/
theorem C8_absolutize :
    ∀ href : String,
      (pyStartswith href "http" = true → makeAbsolute href = href) ∧
      (pyStartswith href "http" = false →
        makeAbsolute href = "https://buyee.jp" ++ href) ∧
      pyStartswith (makeAbsolute href) "http" = true := by
  intro href
  by_cases h : pyStartswith href "http" = true
  · refine ⟨fun _ => ?_, fun hh => absurd h (by rw [hh]; simp), ?_⟩
    · unfold makeAbsolute; rw [if_pos h]
    · unfold makeAbsolute; rw [if_pos h]; exact h
  · refine ⟨fun hh => absurd hh h, fun _ => ?_, ?_⟩
    · unfold makeAbsolute; rw [if_neg h]
    · unfold makeAbsolute
      rw [if_neg h]
      unfold pyStartswith
      rw [String.data_append, List.isPrefixOf_iff_prefix]
      exact List.IsPrefix.trans (by decide) (List.prefix_append _ _)

/-- Witness for C8_absolutize at a relative and an absolute target. -/
theorem C8_absolutize_witness :
    makeAbsolute "/item/9" = "https://buyee.jp" ++ "/item/9" ∧
    makeAbsolute "https://buyee.jp/item/9" = "https://buyee.jp/item/9" :=
  ⟨(C8_absolutize "/item/9").2.1 (by decide),
    (C8_absolutize "https://buyee.jp/item/9").1 (by decide)⟩

/-- Claim C9: when the keyword cell has leading or trailing whitespace,
the ceiling lookup keyed by the trimmed keyword misses at the untrimmed
keyword used by the crawl loop, so the keyword is processed with no price
ceiling regardless of the ceiling column. -/
theorem C9_untrimmed_keyword_loses_ceiling :
    ∀ (codes maxRaw : List String) (kw : String),
      (∃ c, (kw.data.head? = some c ∨ kw.data.getLast? = some c) ∧
        c.isWhitespace = true) →
      lookupLimit (codes.zip maxRaw) kw = none := by
  intro codes maxRaw kw h
  unfold lookupLimit
  cases hf : (codes.zip maxRaw).reverse.find? (fun p => pyStrip p.1 = kw) with
  | none => rfl
  | some p =>
    have hp := List.find?_some hf
    simp only [decide_eq_true_eq] at hp
    exact absurd hp (pyStrip_ne_of_ws p.1 kw h)

/-- Witness for C9 at the row `(" x ", "5,000")`: the untrimmed keyword
`" x "` finds no ceiling even though a valid ceiling was supplied for the
trimmed keyword. -/
theorem C9_untrimmed_keyword_loses_ceiling_witness :
    lookupLimit ([" x "].zip ["5,000"]) " x " = none ∧
    parseCeil "5,000" = some 5000 :=
  ⟨C9_untrimmed_keyword_loses_ceiling [" x "] ["5,000"] " x "
      ⟨' ', Or.inl (by decide), by decide⟩, by decide⟩

end Crawler

namespace Crawler

/-- Claim C1: an item is projected into an output row only if its parsed
price passes the ceiling (when one is set) and its url is not in the
existing set at the moment of the check, in which case the url is added;
and across a whole run (any keywords, same or different), each url gains
at most one output row, and a url already recorded before the run gains
none. -/
theorem C1_admission_and_dedup :
    (∀ (limit : Option Nat) (st : RunState) (it : Item) (st' : RunState),
      processItem limit st it = .ok st' → st'.rows ≠ st.rows →
      ∃ p, priceValue it.price = .ok p ∧ (∀ l, limit = some l → p ≤ l) ∧
        it.url ∉ st.existing ∧ st'.rows = st.rows ++ [itemRow it] ∧
        it.url ∈ st'.existing) ∧
    (∀ (codes maxRaw existing0 : List String)
      (crawl : String → Except Unit (List Item)) (now : String)
      (st : RunState), runMain codes maxRaw existing0 crawl now = .ok st →
      ∀ u, urlCount u st.rows ≤ 1 ∧
        (u ∈ existing0 → urlCount u st.rows = 0)) := by
  constructor
  · intro limit st it st' h hne
    obtain ⟨p, hp, hcase⟩ := processItem_cases limit st it st' h
    cases hcase with
    | inl he => exact absurd (by rw [he]) hne
    | inr hr =>
      obtain ⟨hceil, hnot, hst⟩ := hr
      refine ⟨p, hp, hceil, hnot, ?_, ?_⟩
      · rw [hst]
      · rw [hst]; exact List.mem_cons_self _ _
  · intro codes maxRaw existing0 crawl now st h u
    obtain ⟨hsub, hcnt⟩ := runMain_good codes maxRaw existing0 crawl now st h
    exact ⟨(hcnt u).1, fun hu => (hcnt u).2.2 hu⟩

/-- Witness for C1_admission_and_dedup: one accepted item in an empty
state, and a one-keyword run producing exactly one row for its url. -/
theorem C1_admission_and_dedup_witness :
    (∃ p, priceValue "8" = Except.ok p ∧
      (∀ l, (none : Option Nat) = some l → p ≤ l) ∧
      "u" ∉ ([] : List String) ∧
      ([itemRow ⟨"a", "t", "8", "", "u", "d"⟩] : List Row) =
        [] ++ [itemRow ⟨"a", "t", "8", "", "u", "d"⟩] ∧
      "u" ∈ ["u"]) ∧
    (urlCount "u" [itemRow ⟨"a", "t", "8", "", "u", "d"⟩] ≤ 1 ∧
      ("u" ∈ ([] : List String) →
        urlCount "u" [itemRow ⟨"a", "t", "8", "", "u", "d"⟩] = 0)) := by
  constructor
  · exact C1_admission_and_dedup.1 none ⟨[], []⟩ ⟨"a", "t", "8", "", "u", "d"⟩
      ⟨["u"], [itemRow ⟨"a", "t", "8", "", "u", "d"⟩]⟩ (by decide) (by decide)
  · exact C1_admission_and_dedup.2 ["a"] [] []
      (fun _ => Except.ok [⟨"a", "t", "8", "", "u", "d"⟩]) "d"
      ⟨["u"], [itemRow ⟨"a", "t", "8", "", "u", "d"⟩]⟩ (by decide) "u"

/-- Claim C2, counterexample: the claim says a failing crawl is absorbed
at the keyword boundary and the run continues; but with keyword "a"
failing and keyword "b" crawlable, the whole run aborts with the error
instead of recording zero listings for "a" and emitting the row for
"b". -/
theorem C2_counterexample :
    runMain ["a", "b"] ["", ""] []
      (fun kw => if kw = "a" then Except.error ()
        else Except.ok [⟨"b", "t", "100", "", "https://buyee.jp/item/1", "d"⟩])
      "now" = Except.error () := by decide

/-- Claim C2, amended: there is no `try`/`except` around the per-keyword
crawl, so a frame/wait/selector failure below the session-launch tier is
not absorbed at the keyword boundary: if the crawl of any keyword in the
run errors, the whole run aborts with an error. -/
theorem C2_crawl_failure_aborts :
    ∀ (codes maxRaw existing0 : List String)
      (crawl : String → Except Unit (List Item)) (now : String),
      (∃ kw ∈ codes, crawl kw = .error ()) →
      runMain codes maxRaw existing0 crawl now = .error () := by
  intro codes maxRaw existing0 crawl now h
  exact runKeywords_error (codes.zip maxRaw) crawl now codes ⟨existing0, []⟩ h

/-- Witness for C2_crawl_failure_aborts at a one-keyword run whose crawl
always errors. -/
theorem C2_crawl_failure_aborts_witness :
    runMain ["a"] [] [] (fun _ => Except.error ()) "now" = Except.error () :=
  C2_crawl_failure_aborts ["a"] [] [] (fun _ => Except.error ()) "now"
    ⟨"a", List.mem_cons_self _ _, rfl⟩

/-- Claim C5: over any whole run, at most one accumulated row carries an
empty url cell, and none if an empty url was recorded before the run; a
zero-listing keyword leaves the state unchanged when the empty url is
already recorded, and otherwise emits exactly the sentinel row and
records the empty url so no later keyword can emit a second one. -/
theorem C5_sentinel_unique :
    (∀ (codes maxRaw existing0 : List String)
      (crawl : String → Except Unit (List Item)) (now : String)
      (st : RunState), runMain codes maxRaw existing0 crawl now = .ok st →
      urlCount "" st.rows ≤ 1 ∧
        ("" ∈ existing0 → urlCount "" st.rows = 0)) ∧
    (∀ (kw : String) (limit : Option Nat) (now : String) (st : RunState),
      "" ∈ st.existing → processKeyword kw limit now [] st = .ok st) ∧
    (∀ (kw : String) (limit : Option Nat) (now : String) (st st' : RunState),
      "" ∉ st.existing → processKeyword kw limit now [] st = .ok st' →
      st'.rows = st.rows ++ [sentinelRow kw now] ∧ "" ∈ st'.existing) := by
  refine ⟨?_, ?_, ?_⟩
  · intro codes maxRaw existing0 crawl now st h
    obtain ⟨hsub, hcnt⟩ := runMain_good codes maxRaw existing0 crawl now st h
    exact ⟨(hcnt "").1, fun h0 => (hcnt "").2.2 h0⟩
  · intro kw limit now st hmem
    unfold processKeyword
    rw [if_pos rfl, if_pos hmem]
  · intro kw limit now st st' hnot h
    unfold processKeyword at h
    rw [if_pos rfl, if_neg hnot] at h
    injection h with h
    rw [← h]
    exact ⟨rfl, List.mem_cons_self _ _⟩

/-- Witness for C5_sentinel_unique: a two-keyword run in which both
crawls return no listings yields exactly one sentinel row; a keyword
seeing the empty url already recorded changes nothing; the first sentinel
emission appends the row and records the empty url. -/
theorem C5_sentinel_unique_witness :
    (urlCount "" [sentinelRow "a" "now"] ≤ 1 ∧
      ("" ∈ ([] : List String) → urlCount "" [sentinelRow "a" "now"] = 0)) ∧
    processKeyword "b" none "now" [] ⟨[""], []⟩ = .ok ⟨[""], []⟩ ∧
    ((⟨[""], [sentinelRow "a" "now"]⟩ : RunState).rows =
        [] ++ [sentinelRow "a" "now"] ∧
      "" ∈ (⟨[""], [sentinelRow "a" "now"]⟩ : RunState).existing) := by
  refine ⟨?_, ?_, ?_⟩
  · exact C5_sentinel_unique.1 ["a", "b"] [] [] (fun _ => Except.ok []) "now"
      ⟨[""], [sentinelRow "a" "now"]⟩ (by decide)
  · exact C5_sentinel_unique.2.1 "b" none "now" ⟨[""], []⟩ (by decide)
  · exact C5_sentinel_unique.2.2 "a" none "now" ⟨[], []⟩
      ⟨[""], [sentinelRow "a" "now"]⟩ (by decide) (by decide)

/-- Claim C6: selector inference tallies individual class-token
frequencies and builds `a.<token>` from the strictly most frequent token;
with no tokens at all it falls back to the href-pattern selector; and on
occurrence counts x ↦ 5, y ↦ 3 it targets class x. -/
theorem C6_selector_inference :
    (∀ (classes : List String) (t : String), t ∈ tokenize classes →
      (∀ u ∈ tokenize classes, u ≠ t →
        tokCount (tokenize classes) u < tokCount (tokenize classes) t) →
      inferSelector classes = "a." ++ t) ∧
    (∀ classes : List String, tokenize classes = [] →
      inferSelector classes = "a[href*=\x22/item/\x22]") ∧
    inferSelector ["x x x x x", "y y y"] = "a.x" := by
  refine ⟨?_, ?_, by decide⟩
  · intro classes t hmem hlt
    unfold inferSelector
    rw [topToken_of_strict_max (tokenize classes) t hmem hlt]
  · intro classes h
    unfold inferSelector
    rw [h]
    rfl

/-- Witness for C6_selector_inference: tokens x, x, y give selector
`a.x`; a whitespace-only class attribute gives no tokens and the fallback
selector. -/
theorem C6_selector_inference_witness :
    inferSelector ["x x", "y"] = "a." ++ "x" ∧
    inferSelector [" "] = "a[href*=\x22/item/\x22]" :=
  ⟨C6_selector_inference.1 ["x x", "y"] "x" (by decide) (by decide),
    C6_selector_inference.2.1 [" "] (by decide)⟩

/-- Claim C10: a keyword whose crawl returned at least one listing, all
of which are dropped by the ceiling or duplicate filter, emits no output
row of any kind — in particular no sentinel — and leaves the run state
unchanged. -/
theorem C10_filtered_keyword_emits_nothing :
    ∀ (kw : String) (limit : Option Nat) (now : String) (items : List Item)
      (st : RunState), items ≠ [] →
      (∀ it ∈ items, dropsItem limit st it) →
      processKeyword kw limit now items st = .ok st := by
  intro kw limit now items st hne hall
  unfold processKeyword
  rw [if_neg hne]
  exact processItems_drop limit st items hall

/-- Witness for C10_filtered_keyword_emits_nothing: one listing over the
ceiling and one already-recorded listing are both dropped and nothing is
emitted. -/
theorem C10_filtered_keyword_emits_nothing_witness :
    processKeyword "k" (some 100) "n"
      [⟨"k", "t", "500", "", "u1", "d"⟩, ⟨"k", "t", "50", "", "u2", "d"⟩]
      ⟨["u2"], []⟩ = .ok ⟨["u2"], []⟩ := by
  refine C10_filtered_keyword_emits_nothing "k" (some 100) "n"
    [⟨"k", "t", "500", "", "u1", "d"⟩, ⟨"k", "t", "50", "", "u2", "d"⟩]
    ⟨["u2"], []⟩ (by decide) ?_
  intro it hit
  rcases List.mem_cons.mp hit with h | h
  · subst h
    exact ⟨500, by decide, Or.inl ⟨100, rfl, by decide⟩⟩
  · rcases List.mem_cons.mp h with h2 | h2
    · subst h2
      exact ⟨50, by decide, Or.inr (by decide)⟩
    · exact absurd h2 (List.not_mem_nil it)

end Crawler
